import Mathlib

/-!
Verification development for the betmirror copy-trading core.

The JavaScript/TypeScript sources are embedded shallowly: pure functions
become Lean functions over `ℚ` (JS numbers are modelled as exact rationals),
stateful services become explicit state-passing functions, network calls
become injected response values, and fallible calls become `Except` values.
-/

namespace BetMirror

/-! ## Proportional sizing (`src/dist-node/config/copy-strategy.js`) -/

/-- Input record of `computeProportionalSizing`
(`src/dist-node/config/copy-strategy.js`, destructured on line 2). -/
structure SizingInput where
  yourUsdBalance : ℚ
  traderUsdBalance : ℚ
  traderTradeUsd : ℚ
  multiplier : ℚ
deriving DecidableEq, Repr

/-- Result record of `computeProportionalSizing`. -/
structure SizingOutput where
  targetUsdSize : ℚ
  ratio : ℚ
deriving DecidableEq, Repr

/-- Embedding of `computeProportionalSizing`
(`src/dist-node/config/copy-strategy.js`, lines 1-8):
`denom = Math.max(1, traderUsdBalance + Math.max(0, traderTradeUsd))`,
`ratio = Math.max(0, yourUsdBalance / denom)`,
`base = Math.max(0, traderTradeUsd * ratio)`,
`targetUsdSize = Math.max(1, base * Math.max(0, multiplier))`. -/
def computeProportionalSizing (input : SizingInput) : SizingOutput :=
  let denom := max 1 (input.traderUsdBalance + max 0 input.traderTradeUsd)
  let ratio := max 0 (input.yourUsdBalance / denom)
  let base := max 0 (input.traderTradeUsd * ratio)
  let targetUsdSize := max 1 (base * max 0 input.multiplier)
  { targetUsdSize := targetUsdSize, ratio := ratio }

/-- Reference denominator transcribed from the spec (section 4.2):
`denom = max(1, traderBalance + max(0, traderTradeUsd))`. -/
def specDenom (traderBalance traderTradeUsd : ℚ) : ℚ :=
  max 1 (traderBalance + max 0 traderTradeUsd)

/-- Reference ratio transcribed from the spec (section 4.2):
`ratio = max(0, yourBalance/denom)`. -/
def specRatio (yourBalance traderBalance traderTradeUsd : ℚ) : ℚ :=
  max 0 (yourBalance / specDenom traderBalance traderTradeUsd)

/-- Reference base transcribed from the spec (section 4.2):
`base = max(0, traderTradeUsd * ratio)`. -/
def specBase (yourBalance traderBalance traderTradeUsd : ℚ) : ℚ :=
  max 0 (traderTradeUsd * specRatio yourBalance traderBalance traderTradeUsd)

/-- Reference target transcribed from the spec (section 4.2):
`target = max(0, base * max(0, multiplier))`, clamped to `maxTradeAmount`. -/
def specTarget (yourBalance traderBalance traderTradeUsd multiplier maxTradeAmount : ℚ) : ℚ :=
  min (max 0 (specBase yourBalance traderBalance traderTradeUsd * max 0 multiplier))
    maxTradeAmount

/-- Reference share conversion transcribed from the spec (section 4.2):
the clamped target converted to shares via the price. -/
def specTargetShares (yourBalance traderBalance traderTradeUsd multiplier maxTradeAmount
    price : ℚ) : ℚ :=
  specTarget yourBalance traderBalance traderTradeUsd multiplier maxTradeAmount / price

lemma specDenom_pos (traderBalance traderTradeUsd : ℚ) :
    0 < specDenom traderBalance traderTradeUsd :=
  lt_of_lt_of_le zero_lt_one (le_max_left 1 _)

/-- C1: at the failing input (yourUsdBalance = 0, traderUsdBalance = 10000,
traderTradeUsd = 500, multiplier = 1) the code returns a target USD size of 1,
not 0: the final floor in `computeProportionalSizing` is `Math.max(1, ...)`,
so the target is at least 1 for every input and is never 0 even for a zero or
negative follower balance. -/
theorem computeProportionalSizing_zero_balance_eval :
    (computeProportionalSizing ⟨0, 10000, 500, 1⟩).targetUsdSize = 1 ∧
    ∀ input : SizingInput, 1 ≤ (computeProportionalSizing input).targetUsdSize := by
  constructor
  · norm_num [computeProportionalSizing]
  · intro input
    exact le_max_left 1 _

/-- C2 counterexample: at yourUsdBalance = 0, traderUsdBalance = 10000,
traderTradeUsd = 500, multiplier = 1, maxTradeAmount = 100, the code returns
targetUsdSize = 1 while the reference definition from the spec returns 0, so
`computeProportionalSizing` does not equal the reference definition. -/
theorem computeProportionalSizing_ne_specTarget :
    (computeProportionalSizing ⟨0, 10000, 500, 1⟩).targetUsdSize ≠
      specTarget 0 10000 500 1 100 := by
  norm_num [computeProportionalSizing, specTarget, specBase, specRatio, specDenom]

/-- C2 amended: `computeProportionalSizing` computes the reference `denom`,
`ratio` and `base` exactly as the spec states, but its final step is
`max(1, base * max(0, multiplier))` rather than `max(0, ...)`, and the function
performs no clamping to maxTradeAmount and no share conversion (it returns only
targetUsdSize and ratio); concretely, at an input where the reference pipeline
clamps the target to 100, the code returns the unclamped 500000. -/
theorem computeProportionalSizing_eq_floored_spec_chain :
    (∀ input : SizingInput,
      (computeProportionalSizing input).ratio =
        specRatio input.yourUsdBalance input.traderUsdBalance input.traderTradeUsd ∧
      (computeProportionalSizing input).targetUsdSize =
        max 1 (specBase input.yourUsdBalance input.traderUsdBalance input.traderTradeUsd *
          max 0 input.multiplier)) ∧
    (computeProportionalSizing ⟨1000000, 1000000, 1000000, 1⟩).targetUsdSize = 500000 ∧
    specTarget 1000000 1000000 1000000 1 100 = 100 := by
  refine ⟨fun input => ⟨rfl, rfl⟩, ?_, ?_⟩
  · norm_num [computeProportionalSizing]
  · norm_num [specTarget, specBase, specRatio, specDenom]

/-- C9: for fixed values of the other inputs, the targetUsdSize returned by
`computeProportionalSizing` is non-decreasing in the follower balance
(yourUsdBalance) and non-decreasing in the multiplier. -/
theorem computeProportionalSizing_monotone (i : SizingInput) (y1 y2 m1 m2 : ℚ)
    (hy : y1 ≤ y2) (hm : m1 ≤ m2) :
    (computeProportionalSizing { i with yourUsdBalance := y1 }).targetUsdSize ≤
      (computeProportionalSizing { i with yourUsdBalance := y2 }).targetUsdSize ∧
    (computeProportionalSizing { i with multiplier := m1 }).targetUsdSize ≤
      (computeProportionalSizing { i with multiplier := m2 }).targetUsdSize := by
  constructor
  · simp only [computeProportionalSizing]
    apply max_le_max le_rfl
    apply mul_le_mul_of_nonneg_right ?_ (le_max_left 0 _)
    have hd : 0 < max 1 (i.traderUsdBalance + max 0 i.traderTradeUsd) :=
      lt_of_lt_of_le zero_lt_one (le_max_left 1 _)
    have hr : max 0 (y1 / max 1 (i.traderUsdBalance + max 0 i.traderTradeUsd)) ≤
        max 0 (y2 / max 1 (i.traderUsdBalance + max 0 i.traderTradeUsd)) := by
      apply max_le_max le_rfl
      gcongr
    rcases le_total i.traderTradeUsd 0 with ht | ht
    · have h1 : i.traderTradeUsd *
          max 0 (y1 / max 1 (i.traderUsdBalance + max 0 i.traderTradeUsd)) ≤ 0 :=
        mul_nonpos_iff.mpr (Or.inr ⟨ht, le_max_left 0 _⟩)
      rw [max_eq_left h1]
      exact le_max_left 0 _
    · exact max_le_max le_rfl (mul_le_mul_of_nonneg_left hr ht)
  · simp only [computeProportionalSizing]
    apply max_le_max le_rfl
    exact mul_le_mul_of_nonneg_left (max_le_max le_rfl hm) (le_max_left 0 _)

/-- Witness for the sizing monotonicity theorem at concrete inputs. -/
theorem computeProportionalSizing_monotone_witness :
    (computeProportionalSizing
        { (⟨1000, 10000, 500, 1⟩ : SizingInput) with yourUsdBalance := 0 }).targetUsdSize ≤
      (computeProportionalSizing
        { (⟨1000, 10000, 500, 1⟩ : SizingInput) with yourUsdBalance := 1000 }).targetUsdSize ∧
    (computeProportionalSizing
        { (⟨1000, 10000, 500, 1⟩ : SizingInput) with multiplier := 0 }).targetUsdSize ≤
      (computeProportionalSizing
        { (⟨1000, 10000, 500, 1⟩ : SizingInput) with multiplier := 2 }).targetUsdSize :=
  computeProportionalSizing_monotone ⟨1000, 10000, 500, 1⟩ 0 1000 0 2
    (by norm_num) (by norm_num)

/-! ## Signal monitor (`TradeMonitorService` in
`src/dist-node/services/alpha-registry.service.js`, lines 52-168)

The service keeps two JavaScript `Map`s, `processedHashes` (transaction hash
to first-seen timestamp) and `lastFetchTime` (trader to high-water mark),
both embedded as insertion-ordered association lists. An activity entry is
embedded with the three fields the control flow reads (`type`,
`transactionHash`, `timestamp`); the payload fields copied into the emitted
signal (market id, asset, price, size, side) do not influence which signals
are emitted and are omitted. Timestamps are taken as already-numeric seconds
(the string-date branch of line 133 performs the same conversion). -/

/-- Activity entry returned by the data API, restricted to the fields the
monitor's control flow reads. -/
structure Activity where
  typ : String
  transactionHash : String
  timestamp : Nat
deriving DecidableEq, Repr

/-- Emitted trade signal, restricted to identity and timing fields. -/
structure MonitorSignal where
  trader : String
  transactionHash : String
  timestamp : Nat
deriving DecidableEq, Repr

/-- Lookup in an insertion-ordered association list (JS `Map.get`). -/
def mlookup : List (String × Nat) → String → Option Nat
  | [], _ => none
  | (k', v) :: rest, k => if k' = k then some v else mlookup rest k

/-- Update in an insertion-ordered association list (JS `Map.set`): replace
the existing entry in place, else append at the end. -/
def mset : List (String × Nat) → String → Nat → List (String × Nat)
  | [], k, v => [(k, v)]
  | (k', v') :: rest, k, v =>
      if k' = k then (k, v) :: rest else (k', v') :: mset rest k v

/-- Mutable state of `TradeMonitorService`: `processedHashes` and
`lastFetchTime` (lines 56-57). -/
structure MonitorState where
  processedHashes : List (String × Nat)
  lastFetchTime : List (String × Nat)
deriving DecidableEq, Repr

/-- Per-activity body of the loop in `fetchTraderActivities` (lines 130-160):
skip non-trade types, skip events older than the cutoff, skip already
processed hashes, skip events at or before the trader's high-water mark;
otherwise record the hash, advance the high-water mark and emit the signal. -/
def processActivity (st : MonitorState) (trader : String) (cutoffTime : Nat)
    (a : Activity) : MonitorState × Option MonitorSignal :=
  if a.typ ≠ "TRADE" ∧ a.typ ≠ "ORDER_FILLED" then (st, none)
  else if a.timestamp < cutoffTime then (st, none)
  else if (mlookup st.processedHashes a.transactionHash).isSome then (st, none)
  else if a.timestamp ≤ (mlookup st.lastFetchTime trader).getD 0 then (st, none)
  else
    ({ processedHashes := mset st.processedHashes a.transactionHash a.timestamp,
       lastFetchTime := mset st.lastFetchTime trader
         (max ((mlookup st.lastFetchTime trader).getD 0) a.timestamp) },
     some { trader := trader, transactionHash := a.transactionHash,
            timestamp := a.timestamp })

/-- Sequential processing of one fetched activity list. -/
def processActivities (trader : String) (cutoffTime : Nat) (st : MonitorState) :
    List Activity → MonitorState × List MonitorSignal
  | [] => (st, [])
  | a :: rest =>
      let p := processActivity st trader cutoffTime a
      let r := processActivities trader cutoffTime p.1 rest
      (r.1, p.2.toList ++ r.2)

/-- Body of `fetchTraderActivities` (lines 123-167): a failed or non-array
response (`none`) leaves the state unchanged and emits nothing. -/
def fetchTraderActivities (st : MonitorState) (trader : String) (cutoffTime : Nat) :
    Option (List Activity) → MonitorState × List MonitorSignal
  | none => (st, [])
  | some acts => processActivities trader cutoffTime st acts

/-- Cutoff computed at the top of `tick` (line 102):
`now - Math.max(env.aggregationWindowSeconds, 600)` (truncated at 0, which is
equivalent for the comparisons against the `Nat` timestamps). -/
def cutoffOf (now aggregationWindowSeconds : Nat) : Nat :=
  now - Nat.max aggregationWindowSeconds 600

/-- Pruning pass of `tick` (lines 105-111): when the table holds more than
2000 entries, delete every entry older than the cutoff. -/
def pruneProcessed (st : MonitorState) (cutoffTime : Nat) : MonitorState :=
  if 2000 < st.processedHashes.length then
    { st with processedHashes :=
        st.processedHashes.filter (fun e => decide (cutoffTime ≤ e.2)) }
  else st

/-- One trader together with the activity list its fetch returned
(`none` models a failed fetch). -/
structure TraderFetch where
  trader : String
  resp : Option (List Activity)
deriving DecidableEq, Repr

/-- Per-trader loop of `tick` (lines 113-121), sequentialized: traders whose
address is shorter than 10 characters are skipped (line 117). -/
def processTraders (cutoffTime : Nat) (st : MonitorState) :
    List TraderFetch → MonitorState × List MonitorSignal
  | [] => (st, [])
  | f :: rest =>
      let p := if f.trader.length < 10 then (st, [])
               else fetchTraderActivities st f.trader cutoffTime f.resp
      let r := processTraders cutoffTime p.1 rest
      (r.1, p.2 ++ r.2)

/-- One monitor tick (lines 99-122): compute the cutoff, prune, then process
every tracked trader's fetched activities. -/
def tick (aggregationWindowSeconds : Nat) (st : MonitorState) (now : Nat)
    (fetches : List TraderFetch) : MonitorState × List MonitorSignal :=
  let cutoffTime := cutoffOf now aggregationWindowSeconds
  processTraders cutoffTime (pruneProcessed st cutoffTime) fetches

/-- Input of one tick: the wall-clock second and the fetched activities. -/
structure TickInput where
  now : Nat
  fetches : List TraderFetch
deriving DecidableEq, Repr

/-- A run of the monitor over a sequence of ticks. -/
def runMonitor (aggregationWindowSeconds : Nat) (st : MonitorState) :
    List TickInput → MonitorState × List MonitorSignal
  | [] => (st, [])
  | t :: rest =>
      let p := tick aggregationWindowSeconds st t.now t.fetches
      let r := runMonitor aggregationWindowSeconds p.1 rest
      (r.1, p.2 ++ r.2)

/-- Check that the tick inputs arrive with non-decreasing wall-clock times. -/
def nowsMono : List TickInput → Bool
  | t1 :: t2 :: rest => decide (t1.now ≤ t2.now) && nowsMono (t2 :: rest)
  | _ => true

/-- An activity feed is time-consistent when an activity's timestamp is a
function of its transaction hash alone (a transaction hash identifies one
on-chain event with one fixed timestamp). -/
abbrev feedConsistent (tmOf : String → Nat) (ticks : List TickInput) : Prop :=
  ∀ t ∈ ticks, ∀ f ∈ t.fetches, ∀ a ∈ f.resp.getD [],
    a.timestamp = tmOf a.transactionHash

lemma mlookup_mset_self (m : List (String × Nat)) (k : String) (v : Nat) :
    mlookup (mset m k v) k = some v := by
  induction m with
  | nil => simp [mset, mlookup]
  | cons hd tl ih =>
      by_cases h : hd.1 = k
      · simp [mset, h, mlookup]
      · simp [mset, h, mlookup, ih]

lemma mlookup_mset_ne (m : List (String × Nat)) (k k' : String) (v : Nat)
    (h : k ≠ k') : mlookup (mset m k v) k' = mlookup m k' := by
  induction m with
  | nil => simp [mset, mlookup, h]
  | cons hd tl ih =>
      by_cases hh : hd.1 = k
      · simp [mset, hh, mlookup, h]
      · simp [mset, hh, mlookup, ih]

lemma mem_mset (m : List (String × Nat)) (k : String) (v : Nat) (p : String × Nat)
    (hp : p ∈ mset m k v) : p = (k, v) ∨ p ∈ m := by
  induction m with
  | nil => simpa [mset] using hp
  | cons hd tl ih =>
      by_cases hh : hd.1 = k
      · rcases (by simpa [mset, hh] using hp : p = (k, v) ∨ p ∈ tl) with h | h
        · exact Or.inl h
        · exact Or.inr (List.mem_cons_of_mem hd h)
      · rcases (by simpa [mset, hh] using hp : p = hd ∨ p ∈ mset tl k v) with h | h
        · exact Or.inr (by simp [h])
        · rcases ih h with h2 | h2
          · exact Or.inl h2
          · exact Or.inr (List.mem_cons_of_mem hd h2)

lemma mlookup_none_not_mem (m : List (String × Nat)) (k : String)
    (h : mlookup m k = none) : k ∉ m.map Prod.fst := by
  induction m with
  | nil => simp
  | cons hd tl ih =>
      by_cases hh : hd.1 = k
      · simp [mlookup, hh] at h
      · simp only [mlookup, hh, if_false] at h
        have := ih h
        simp only [List.map_cons, List.mem_cons] at this ⊢
        push_neg
        exact ⟨fun hk => hh hk.symm, by simpa using this⟩

lemma mset_of_not_mem (m : List (String × Nat)) (k : String) (v : Nat)
    (h : k ∉ m.map Prod.fst) : mset m k v = m ++ [(k, v)] := by
  induction m with
  | nil => simp [mset]
  | cons hd tl ih =>
      simp only [List.map_cons, List.mem_cons] at h
      push_neg at h
      have h1 : hd.1 ≠ k := fun hk => h.1 hk.symm
      simp [mset, h1, ih h.2]

lemma mlookup_mem (m : List (String × Nat)) (k : String) (v : Nat)
    (h : mlookup m k = some v) : (k, v) ∈ m := by
  induction m with
  | nil => simp [mlookup] at h
  | cons hd tl ih =>
      by_cases hh : hd.1 = k
      · simp only [mlookup, hh, if_true, Option.some.injEq] at h
        subst hh
        subst h
        simp
      · simp only [mlookup, hh, if_false] at h
        exact List.mem_cons_of_mem hd (ih h)

lemma mlookup_filter_some (m : List (String × Nat)) (k : String) (v : Nat)
    (p : String × Nat → Bool) (h : mlookup m k = some v) (hp : p (k, v) = true) :
    mlookup (m.filter p) k = some v := by
  induction m with
  | nil => simp [mlookup] at h
  | cons hd tl ih =>
      by_cases hh : hd.1 = k
      · simp only [mlookup, hh, if_true, Option.some.injEq] at h
        have hhd : hd = (k, v) := by
          cases hd
          simp_all
        subst hhd
        simp [List.filter, hp, mlookup]
      · simp only [mlookup, hh, if_false] at h
        by_cases hf : p hd = true
        · simp [List.filter, hf, mlookup, hh, ih h]
        · simp only [List.filter, Bool.not_eq_true] at hf ⊢
          rw [hf]
          exact ih h

/-- Invariant carried through a monitor run: the processed table has no
duplicate hashes, every recorded timestamp is the hash's true timestamp,
the emitted signals carry pairwise distinct hashes, and every emitted hash
is either still recorded or already older than the current cutoff. -/
def MonInv (tmOf : String → Nat) (c : Nat) (st : MonitorState)
    (sigs : List MonitorSignal) : Prop :=
  (st.processedHashes.map Prod.fst).Nodup ∧
  (∀ p ∈ st.processedHashes, p.2 = tmOf p.1) ∧
  (sigs.map MonitorSignal.transactionHash).Nodup ∧
  (∀ s ∈ sigs,
    (mlookup st.processedHashes s.transactionHash).isSome = true ∨
      tmOf s.transactionHash < c)

lemma MonInv.mono {tmOf : String → Nat} {c c' : Nat} {st : MonitorState}
    {sigs : List MonitorSignal} (h : MonInv tmOf c st sigs) (hcc : c ≤ c') :
    MonInv tmOf c' st sigs :=
  ⟨h.1, h.2.1, h.2.2.1, fun s hs => (h.2.2.2 s hs).imp id (fun hlt => lt_of_lt_of_le hlt hcc)⟩

lemma processActivity_inv {tmOf : String → Nat} {c : Nat} {st : MonitorState}
    {sigs : List MonitorSignal} (tr : String) (a : Activity)
    (h : MonInv tmOf c st sigs) (ha : a.timestamp = tmOf a.transactionHash) :
    MonInv tmOf c (processActivity st tr c a).1
      (sigs ++ (processActivity st tr c a).2.toList) := by
  unfold processActivity
  split
  · simpa using h
  · split
    · simpa using h
    · split
      · simpa using h
      · rename_i hage hproc
        split
        · simpa using h
        · rename_i hhwm
          obtain ⟨hk, hv, hs, hrec⟩ := h
          have hnone : mlookup st.processedHashes a.transactionHash = none :=
            Option.not_isSome_iff_eq_none.mp (by simpa using hproc)
          have hnotmem : a.transactionHash ∉ st.processedHashes.map Prod.fst :=
            mlookup_none_not_mem _ _ hnone
          have hset : mset st.processedHashes a.transactionHash a.timestamp =
              st.processedHashes ++ [(a.transactionHash, a.timestamp)] :=
            mset_of_not_mem _ _ _ hnotmem
          have hge : c ≤ a.timestamp := le_of_not_lt hage
          have hfresh : ∀ s ∈ sigs, s.transactionHash ≠ a.transactionHash := by
            intro s hsmem heq
            rcases hrec s hsmem with hin | hlt
            · rw [heq, hnone] at hin
              simp at hin
            · rw [heq, ← ha] at hlt
              exact absurd (lt_of_le_of_lt hge hlt) (lt_irrefl _)
          refine ⟨?_, ?_, ?_, ?_⟩
          · rw [hset, List.map_append]
            refine List.Nodup.append hk (List.nodup_singleton _) ?_
            intro x hx hx2
            simp only [List.map_cons, List.map_nil, List.mem_singleton] at hx2
            subst hx2
            exact hnotmem hx
          · intro p hp
            rcases mem_mset _ _ _ _ hp with hpe | hpm
            · rw [hpe]
              exact ha
            · exact hv p hpm
          · simp only [Option.toList_some, List.map_append, List.map_cons, List.map_nil]
            rw [List.nodup_append]
            refine ⟨hs, List.nodup_singleton _, ?_⟩
            intro x hx
            simp only [List.mem_singleton]
            intro hxe
            obtain ⟨s, hsmem, hse⟩ := List.mem_map.mp hx
            exact hfresh s hsmem (hse.trans hxe)
          · intro s hsmem
            rcases List.mem_append.mp hsmem with hold | hnew
            · rcases hrec s hold with hin | hlt
              · left
                rcases Option.isSome_iff_exists.mp hin with ⟨v, hvv⟩
                by_cases hcase : s.transactionHash = a.transactionHash
                · rw [hcase]
                  simp [mlookup_mset_self]
                · rw [mlookup_mset_ne _ _ _ _ (fun he => hcase he.symm), hvv]
                  simp
              · exact Or.inr hlt
            · left
              simp only [Option.toList_some, List.mem_singleton] at hnew
              rw [hnew]
              simp [mlookup_mset_self]

lemma processActivities_inv {tmOf : String → Nat} {c : Nat} (tr : String)
    (acts : List Activity) :
    ∀ (st : MonitorState) (sigs : List MonitorSignal), MonInv tmOf c st sigs →
    (∀ a ∈ acts, a.timestamp = tmOf a.transactionHash) →
    MonInv tmOf c (processActivities tr c st acts).1
      (sigs ++ (processActivities tr c st acts).2) := by
  induction acts with
  | nil => intro st sigs h _; simpa [processActivities] using h
  | cons a rest ih =>
      intro st sigs h hcons
      have h1 := processActivity_inv tr a h (hcons a (by simp))
      have h2 := ih (processActivity st tr c a).1
        (sigs ++ (processActivity st tr c a).2.toList) h1
        (fun x hx => hcons x (List.mem_cons_of_mem a hx))
      simpa [processActivities, List.append_assoc] using h2

lemma fetchTraderActivities_inv {tmOf : String → Nat} {c : Nat} (tr : String)
    (resp : Option (List Activity)) (st : MonitorState) (sigs : List MonitorSignal)
    (h : MonInv tmOf c st sigs)
    (hcons : ∀ a ∈ resp.getD [], a.timestamp = tmOf a.transactionHash) :
    MonInv tmOf c (fetchTraderActivities st tr c resp).1
      (sigs ++ (fetchTraderActivities st tr c resp).2) := by
  cases resp with
  | none => simpa [fetchTraderActivities] using h
  | some acts =>
      simpa [fetchTraderActivities] using
        processActivities_inv tr acts st sigs h (by simpa using hcons)

lemma processTraders_inv {tmOf : String → Nat} {c : Nat} (fetches : List TraderFetch) :
    ∀ (st : MonitorState) (sigs : List MonitorSignal), MonInv tmOf c st sigs →
    (∀ f ∈ fetches, ∀ a ∈ f.resp.getD [], a.timestamp = tmOf a.transactionHash) →
    MonInv tmOf c (processTraders c st fetches).1
      (sigs ++ (processTraders c st fetches).2) := by
  induction fetches with
  | nil => intro st sigs h _; simpa [processTraders] using h
  | cons f rest ih =>
      intro st sigs h hcons
      by_cases hskip : f.trader.length < 10
      · have h2 := ih st sigs h (fun x hx => hcons x (List.mem_cons_of_mem f hx))
        simpa [processTraders, hskip] using h2
      · have h1 := fetchTraderActivities_inv f.trader f.resp st sigs h
          (hcons f (by simp))
        have h2 := ih (fetchTraderActivities st f.trader c f.resp).1
          (sigs ++ (fetchTraderActivities st f.trader c f.resp).2) h1
          (fun x hx => hcons x (List.mem_cons_of_mem f hx))
        simpa [processTraders, hskip, List.append_assoc] using h2

lemma pruneProcessed_inv {tmOf : String → Nat} {c : Nat} {st : MonitorState}
    {sigs : List MonitorSignal} (h : MonInv tmOf c st sigs) :
    MonInv tmOf c (pruneProcessed st c) sigs := by
  unfold pruneProcessed
  split
  · obtain ⟨hk, hv, hs, hrec⟩ := h
    refine ⟨?_, ?_, hs, ?_⟩
    · exact List.Nodup.sublist (List.Sublist.map Prod.fst (List.filter_sublist _)) hk
    · intro p hp
      exact hv p (List.mem_of_mem_filter hp)
    · intro s hsmem
      rcases hrec s hsmem with hin | hlt
      · rcases Option.isSome_iff_exists.mp hin with ⟨v, hvv⟩
        have hval : v = tmOf s.transactionHash := hv _ (mlookup_mem _ _ _ hvv)
        by_cases hkeep : c ≤ v
        · left
          have := mlookup_filter_some st.processedHashes s.transactionHash v
            (fun e => decide (c ≤ e.2)) hvv (by simpa using hkeep)
          simp [this]
        · right
          rw [← hval]
          exact lt_of_not_le hkeep
      · exact Or.inr hlt
  · exact h

lemma tick_inv {tmOf : String → Nat} {c0 : Nat} {st : MonitorState}
    {sigs : List MonitorSignal} (w now : Nat) (fetches : List TraderFetch)
    (h : MonInv tmOf c0 st sigs) (hc : c0 ≤ cutoffOf now w)
    (hcons : ∀ f ∈ fetches, ∀ a ∈ f.resp.getD [], a.timestamp = tmOf a.transactionHash) :
    MonInv tmOf (cutoffOf now w) (tick w st now fetches).1
      (sigs ++ (tick w st now fetches).2) := by
  have h1 := pruneProcessed_inv (h.mono hc)
  simpa [tick] using processTraders_inv fetches _ sigs h1 hcons

lemma runMonitor_inv {tmOf : String → Nat} (w : Nat) (ticks : List TickInput) :
    ∀ (st : MonitorState) (sigs : List MonitorSignal) (c0 : Nat),
    MonInv tmOf c0 st sigs → feedConsistent tmOf ticks → nowsMono ticks = true →
    (∀ t, ticks.head? = some t → c0 ≤ cutoffOf t.now w) →
    ∃ c1, MonInv tmOf c1 (runMonitor w st ticks).1
      (sigs ++ (runMonitor w st ticks).2) := by
  induction ticks with
  | nil =>
      intro st sigs c0 h _ _ _
      exact ⟨c0, by simpa [runMonitor] using h⟩
  | cons t rest ih =>
      intro st sigs c0 h hcons hmono hfirst
      have hc : c0 ≤ cutoffOf t.now w := hfirst t rfl
      have hconsT : ∀ f ∈ t.fetches, ∀ a ∈ f.resp.getD [],
          a.timestamp = tmOf a.transactionHash :=
        fun f hf a ha => hcons t (by simp) f hf a ha
      have h1 := tick_inv w t.now t.fetches h hc hconsT
      have hconsR : feedConsistent tmOf rest :=
        fun t2 ht2 f hf a ha => hcons t2 (List.mem_cons_of_mem t ht2) f hf a ha
      have hmonoR : nowsMono rest = true := by
        cases rest with
        | nil => rfl
        | cons t2 rest2 =>
            simp only [nowsMono, Bool.and_eq_true] at hmono
            exact hmono.2
      have hfirstR : ∀ t2, rest.head? = some t2 → cutoffOf t.now w ≤ cutoffOf t2.now w := by
        intro t2 ht2
        cases rest with
        | nil => simp at ht2
        | cons t2' rest2 =>
            simp only [List.head?_cons, Option.some.injEq] at ht2
            subst ht2
            simp only [nowsMono, Bool.and_eq_true, decide_eq_true_eq] at hmono
            exact Nat.sub_le_sub_right hmono.1 _
      obtain ⟨c1, h2⟩ := ih (tick w st t.now t.fetches).1
        (sigs ++ (tick w st t.now t.fetches).2) (cutoffOf t.now w) h1 hconsR hmonoR hfirstR
      exact ⟨c1, by simpa [runMonitor, List.append_assoc] using h2⟩

/-- C3: over any run of monitor ticks whose wall-clock times are
non-decreasing and whose activity feed gives each transaction hash one fixed
timestamp, each transaction hash is emitted at most once — even across
repeated fetches and across pruning of the processed-hash table — and the
processed-hash table maps each hash to at most one entry. The run may start
from any initial high-water marks (the optional start cursor of `start`). -/
theorem monitor_dedup (w : Nat) (l0 : List (String × Nat)) (ticks : List TickInput)
    (tmOf : String → Nat) (hcons : feedConsistent tmOf ticks)
    (hmono : nowsMono ticks = true) :
    ((runMonitor w ⟨[], l0⟩ ticks).2.map MonitorSignal.transactionHash).Nodup ∧
    ((runMonitor w ⟨[], l0⟩ ticks).1.processedHashes.map Prod.fst).Nodup := by
  have h0 : MonInv tmOf 0 (⟨[], l0⟩ : MonitorState) [] := by
    refine ⟨List.nodup_nil, ?_, List.nodup_nil, ?_⟩ <;> simp
  obtain ⟨c1, h⟩ := runMonitor_inv w ticks ⟨[], l0⟩ [] 0 h0 hcons hmono
    (fun t _ => Nat.zero_le _)
  exact ⟨by simpa using h.2.2.1, h.1⟩

/-- Witness for the dedup theorem: a concrete two-tick run in which the same
transaction hash is fetched three times (twice in the first tick, once in the
second) yet is emitted exactly once. -/
theorem monitor_dedup_witness :
    ((runMonitor 300 ⟨[], []⟩
        [⟨1000, [⟨"0xtrader0001", some [⟨"TRADE", "0xhash1", 950⟩,
                                        ⟨"TRADE", "0xhash1", 950⟩]⟩]⟩,
         ⟨1002, [⟨"0xtrader0001", some [⟨"TRADE", "0xhash1", 950⟩]⟩]⟩]).2.map
      MonitorSignal.transactionHash).Nodup ∧
    (((runMonitor 300 ⟨[], []⟩
        [⟨1000, [⟨"0xtrader0001", some [⟨"TRADE", "0xhash1", 950⟩,
                                        ⟨"TRADE", "0xhash1", 950⟩]⟩]⟩,
         ⟨1002, [⟨"0xtrader0001", some [⟨"TRADE", "0xhash1", 950⟩]⟩]⟩]).1.processedHashes.map
      Prod.fst)).Nodup :=
  monitor_dedup 300 []
    [⟨1000, [⟨"0xtrader0001", some [⟨"TRADE", "0xhash1", 950⟩,
                                    ⟨"TRADE", "0xhash1", 950⟩]⟩]⟩,
     ⟨1002, [⟨"0xtrader0001", some [⟨"TRADE", "0xhash1", 950⟩]⟩]⟩]
    (fun _ => 950) (by decide) (by decide)

/-- C8: on every monitor tick the cutoff is `now - max(aggregationWindow, 600)`
and that cutoff is the one the tick hands to activity processing; an activity
with a timestamp older than the cutoff is dropped with the state (processed
table and high-water marks) unchanged and nothing emitted; an activity at or
before the trader's high-water mark is likewise dropped; and an emitted
activity records its transaction hash with its timestamp and strictly advances
the trader's high-water mark to that timestamp. -/
theorem tick_cutoff_and_filtering (now w : Nat) (st : MonitorState) (trader : String)
    (a : Activity) (fetches : List TraderFetch) :
    cutoffOf now w = now - Nat.max w 600 ∧
    tick w st now fetches =
      processTraders (cutoffOf now w) (pruneProcessed st (cutoffOf now w)) fetches ∧
    (a.timestamp < cutoffOf now w →
      processActivity st trader (cutoffOf now w) a = (st, none)) ∧
    (a.timestamp ≤ (mlookup st.lastFetchTime trader).getD 0 →
      processActivity st trader (cutoffOf now w) a = (st, none)) ∧
    (∀ st' s, processActivity st trader (cutoffOf now w) a = (st', some s) →
      mlookup st'.processedHashes a.transactionHash = some a.timestamp ∧
      (mlookup st'.lastFetchTime trader).getD 0 = a.timestamp ∧
      (mlookup st.lastFetchTime trader).getD 0 < a.timestamp) := by
  refine ⟨rfl, rfl, ?_, ?_, ?_⟩
  · intro h
    unfold processActivity
    simp [h]
  · intro h
    unfold processActivity
    simp [h]
  · intro st' s heq
    unfold processActivity at heq
    split at heq
    · simp at heq
    · split at heq
      · simp at heq
      · split at heq
        · simp at heq
        · split at heq
          · simp at heq
          · rename_i hhwm
            have hlt : (mlookup st.lastFetchTime trader).getD 0 < a.timestamp :=
              lt_of_not_le hhwm
            injection heq with h1 h2
            subst h1
            refine ⟨?_, ?_, hlt⟩
            · simp [mlookup_mset_self]
            · rw [mlookup_mset_self]
              simp [max_eq_right (le_of_lt hlt)]

/-- Witness for the tick filtering theorem: the cutoff at now = 1000 with a
300 second window is 400 (the 600 second floor applies); a 100 second old
activity is dropped; an activity behind the 950 high-water mark is dropped;
an emitted activity at 950 is recorded and advances the high-water mark. -/
theorem tick_cutoff_and_filtering_witness :
    cutoffOf 1000 300 = 1000 - Nat.max 300 600 ∧
    processActivity ⟨[], []⟩ "0xtrader0001" (cutoffOf 1000 300)
      ⟨"TRADE", "0xhash1", 100⟩ = (⟨[], []⟩, none) ∧
    processActivity ⟨[], [("0xtrader0001", 950)]⟩ "0xtrader0001" (cutoffOf 1000 300)
      ⟨"TRADE", "0xhash1", 940⟩ = (⟨[], [("0xtrader0001", 950)]⟩, none) ∧
    (mlookup (⟨[("0xhash1", 950)], [("0xtrader0001", 950)]⟩ :
        MonitorState).processedHashes "0xhash1" = some 950 ∧
      (mlookup (⟨[("0xhash1", 950)], [("0xtrader0001", 950)]⟩ :
        MonitorState).lastFetchTime "0xtrader0001").getD 0 = 950 ∧
      (mlookup (⟨[], []⟩ : MonitorState).lastFetchTime "0xtrader0001").getD 0 < 950) :=
  ⟨(tick_cutoff_and_filtering 1000 300 ⟨[], []⟩ "0xtrader0001"
      ⟨"TRADE", "0xhash1", 100⟩ []).1,
   (tick_cutoff_and_filtering 1000 300 ⟨[], []⟩ "0xtrader0001"
      ⟨"TRADE", "0xhash1", 100⟩ []).2.2.1 (by decide),
   (tick_cutoff_and_filtering 1000 300 ⟨[], [("0xtrader0001", 950)]⟩ "0xtrader0001"
      ⟨"TRADE", "0xhash1", 940⟩ []).2.2.2.1 (by decide),
   (tick_cutoff_and_filtering 1000 300 ⟨[], []⟩ "0xtrader0001"
      ⟨"TRADE", "0xhash1", 950⟩ []).2.2.2.2
      ⟨[("0xhash1", 950)], [("0xtrader0001", 950)]⟩
      ⟨"0xtrader0001", "0xhash1", 950⟩ (by decide)⟩

/-! ## Trade executor (`TradeExecutorService.copyTrade`, `src/unnamed/part_002`
lines 310-440, compiled form in `src/unnamed/part_006`)

Adapter calls are embedded as injected response values carried by a
`CopyTradeEnv`; a thrown JS error is an `Except.error` and lands in the
method's outer catch, which returns a FAILED result. Besides the
`ExecutionResult` and the updated `pendingSpend` counter, the embedding
returns the ordered list of adapter calls the method performed, so that
claims about calls never made are statable. -/

/-- Liquidity health scale (`LiquidityHealth` in
`src/src/adapters/interfaces.ts` as extended in `src/unnamed/part_006`). -/
inductive LiquidityHealth
  | CRITICAL
  | LOW
  | MEDIUM
  | HIGH
deriving DecidableEq, Repr

/-- Numeric ranks from the `ranks` table in `copyTrade`
(`src/unnamed/part_002` lines 327-332). -/
def liquidityRank : LiquidityHealth → Nat
  | .HIGH => 3
  | .MEDIUM => 2
  | .LOW => 1
  | .CRITICAL => 0

/-- Liquidity metrics returned by `adapter.getLiquidityMetrics`. -/
structure LiquidityMetrics where
  health : LiquidityHealth
  spreadPercent : ℚ
  availableDepthUsd : ℚ
deriving DecidableEq, Repr

/-- Order side. -/
inductive OrderSide
  | BUY
  | SELL
deriving DecidableEq, Repr

/-- Trade signal consumed by the executor (`src/domain/trade.types`). -/
structure TradeSignal where
  trader : String
  marketId : String
  tokenId : String
  outcome : String
  side : OrderSide
  sizeUsd : ℚ
  price : ℚ
deriving DecidableEq, Repr

/-- Execution statuses of the current executor (`src/unnamed/part_002`
line 247). -/
inductive ExecStatus
  | FILLED
  | FAILED
  | SKIPPED
  | ILLIQUID
deriving DecidableEq, Repr

/-- Execution result record (`src/unnamed/part_002` lines 246-253). -/
structure ExecutionResult where
  status : ExecStatus
  txHash : Option String
  executedAmount : ℚ
  executedShares : ℚ
  priceFilled : ℚ
  reason : Option String
deriving DecidableEq, Repr

/-- Order parameters handed to `adapter.createOrder`
(`OrderParams` in `src/src/adapters/interfaces.ts`). -/
structure OrderParams where
  marketId : String
  tokenId : String
  outcome : String
  side : OrderSide
  sizeUsd : ℚ
  sizeShares : Option ℚ
  priceLimit : Option ℚ
deriving DecidableEq, Repr

/-- Exchange position returned by `adapter.getPositions`. -/
structure ExchangePosition where
  tokenId : String
  balance : ℚ
  valueUsd : ℚ
deriving DecidableEq, Repr

/-- Result record of `adapter.createOrder` as consumed by `copyTrade`. -/
structure CreateOrderResult where
  success : Bool
  sharesFilled : ℚ
  priceFilled : ℚ
  orderId : Option String
  txHash : Option String
  error : Option String
deriving DecidableEq, Repr

/-- Ordered log of the adapter/API calls `copyTrade` performs. The
`orderCall` tag carries the submitted order parameters. -/
inductive AdapterCall
  | liqCall
  | balCall
  | posCall
  | whaleCall
  | bookCall
  | orderCall (params : OrderParams)
deriving DecidableEq, Repr

/-- Environment of one `copyTrade` execution: the responses of every
external call it may make, plus the configuration it reads. A `none`
`getLiquidityMetricsResp` models an adapter without `getLiquidityMetrics`
(the guard at line 323 is skipped); an `Except.error` models a thrown
error. `traderBalance` is the value `getTraderBalance` returned (that
helper never throws; it is modelled separately as `getTraderBalance`). -/
structure CopyTradeEnv where
  getLiquidityMetricsResp : Option (Except String LiquidityMetrics)
  minLiquidityFilter : Option LiquidityHealth
  fetchBalanceResp : Except String ℚ
  getPositionsResp : Except String (List ExchangePosition)
  traderBalance : ℚ
  getOrderBookMinOrderSize : Except String (Option ℚ)
  tradeMultiplier : ℚ
  maxTradeAmount : ℚ
  createOrderResp : Except String CreateOrderResult
deriving Repr

/-- Input record of the seven-field sizing call in `copyTrade`
(`src/unnamed/part_002` lines 369-377). -/
structure FullSizingInput where
  yourUsdBalance : ℚ
  traderUsdBalance : ℚ
  traderTradeUsd : ℚ
  multiplier : ℚ
  currentPrice : ℚ
  maxTradeAmount : ℚ
  minOrderSize : ℚ
deriving DecidableEq, Repr

/-- Result record of the seven-field sizing call as read by `copyTrade`. -/
structure FullSizingResult where
  targetUsdSize : ℚ
  targetShares : ℚ
  ratio : ℚ
  reason : Option String
deriving DecidableEq, Repr

/-- Modelled from the spec: the current executor (`src/unnamed/part_002`
lines 369-382) calls a `computeProportionalSizing` variant that also takes
`currentPrice`, `maxTradeAmount` and `minOrderSize` and returns
`targetShares` and an optional rejection reason; the source of that variant
is missing from the sources (only this caller and the older four-field
variant in `src/dist-node/config/copy-strategy.js` are present). Following
the spec section 4.2: the reference denom/ratio/base chain, target clamped
to maxTradeAmount, converted to shares via the price, and a rejection
reason when the target is below one dollar or the shares are below the
market minimum order size. -/
def computeProportionalSizingFull (i : FullSizingInput) : FullSizingResult :=
  let target := specTarget i.yourUsdBalance i.traderUsdBalance i.traderTradeUsd
    i.multiplier i.maxTradeAmount
  let shares := target / i.currentPrice
  { targetUsdSize := target,
    targetShares := shares,
    ratio := specRatio i.yourUsdBalance i.traderUsdBalance i.traderTradeUsd,
    reason := if target < 1 then some "skipped_size_too_small"
      else if shares < i.minOrderSize then some "below_min_order_size"
      else none }

/-- Failure result builder (`failResult` closure, `src/unnamed/part_002`
lines 313-319). -/
def failResult (reason : String) (status : ExecStatus) : ExecutionResult :=
  { status := status, txHash := none, executedAmount := 0, executedShares := 0,
    priceFilled := 0, reason := some reason }

/-- BUY price limit (`src/unnamed/part_002` lines 387-389):
`signal.price * (1 + 0.05)`, capped at 0.99. -/
def buyPriceLimit (signalPrice : ℚ) : ℚ :=
  let pl := signalPrice * (1 + 5/100)
  if pl > 99/100 then 99/100 else pl

/-- Automated SELL price limit (`src/unnamed/part_002` lines 390-393):
`signal.price * (1 - 0.10)`, floored at 0.001. -/
def sellPriceLimit (signalPrice : ℚ) : ℚ :=
  let pl := signalPrice * (1 - 10/100)
  if pl < 1/1000 then 1/1000 else pl

/-- Price limit `copyTrade` attaches to the order (`src/unnamed/part_002`
lines 384-393): the BUY cap for buys, the SELL floor for automated sells. -/
def copyTradePriceLimit (signal : TradeSignal) : ℚ :=
  match signal.side with
  | .BUY => buyPriceLimit signal.price
  | .SELL => sellPriceLimit signal.price

/-- Default order-book minimum (`src/unnamed/part_002` lines 359-367): 5,
overridden by a truthy `book.min_order_size` when the book fetch succeeds. -/
def minOrderSizeOf : Except String (Option ℚ) → ℚ
  | .error _ => 5
  | .ok none => 5
  | .ok (some m) => if m ≠ 0 then m else 5

/-- Usable balance for a BUY (`src/unnamed/part_002` line 346): the fresh
chain balance minus the pending spend, floored at 0. -/
def usableBalanceBuy (chainBalance pendingSpend : ℚ) : ℚ :=
  max 0 (chainBalance - pendingSpend)

/-- Sizing input as `copyTrade` assembles it (`src/unnamed/part_002`
lines 369-377). -/
def copyTradeSizingInput (env : CopyTradeEnv) (signal : TradeSignal)
    (usableBalanceForTrade : ℚ) : FullSizingInput :=
  { yourUsdBalance := usableBalanceForTrade,
    traderUsdBalance := env.traderBalance,
    traderTradeUsd := signal.sizeUsd,
    multiplier := env.tradeMultiplier,
    currentPrice := signal.price,
    maxTradeAmount := env.maxTradeAmount,
    minOrderSize := minOrderSizeOf env.getOrderBookMinOrderSize }

/-- Tail of `copyTrade` from the sizing call on (`src/unnamed/part_002`
lines 357-427): fetch the trader balance and the book minimum, size the
trade, skip when too small, compute the price limit, submit the order,
and bump `pendingSpend` on a successful BUY. -/
def copyTradeSized (env : CopyTradeEnv) (pendingSpend : ℚ) (signal : TradeSignal)
    (usableBalanceForTrade : ℚ) (calls0 : List AdapterCall) :
    ExecutionResult × ℚ × List AdapterCall :=
  let minOrderSize := minOrderSizeOf env.getOrderBookMinOrderSize
  let sizing := computeProportionalSizingFull
    (copyTradeSizingInput env signal usableBalanceForTrade)
  let calls1 := calls0 ++ [AdapterCall.whaleCall, AdapterCall.bookCall]
  if sizing.targetUsdSize < 1 ∨ sizing.targetShares < minOrderSize then
    if usableBalanceForTrade < 1 then
      (failResult "skipped_insufficient_balance_min_1" .SKIPPED, pendingSpend, calls1)
    else
      (failResult (sizing.reason.getD "skipped_size_too_small") .SKIPPED,
        pendingSpend, calls1)
  else
    let priceLimit := copyTradePriceLimit signal
    let params : OrderParams :=
      { marketId := signal.marketId, tokenId := signal.tokenId,
        outcome := signal.outcome, side := signal.side,
        sizeUsd := sizing.targetUsdSize, sizeShares := none,
        priceLimit := some priceLimit }
    let calls2 := calls1 ++ [AdapterCall.orderCall params]
    match env.createOrderResp with
    | .error e => (failResult e .FAILED, pendingSpend, calls2)
    | .ok result =>
        if result.success = false then
          ({ status := .FAILED, txHash := none, executedAmount := 0,
             executedShares := 0, priceFilled := 0,
             reason := some (result.error.getD "Unknown error") },
           pendingSpend, calls2)
        else
          ({ status := .FILLED, txHash := result.orderId <|> result.txHash,
             executedAmount := result.sharesFilled * result.priceFilled,
             executedShares := result.sharesFilled,
             priceFilled := result.priceFilled, reason := some "executed" },
           (match signal.side with
            | .BUY => pendingSpend + sizing.targetUsdSize
            | .SELL => pendingSpend),
           calls2)

/-- Middle of `copyTrade` (`src/unnamed/part_002` lines 341-355): the BUY
branch fetches a fresh balance and subtracts the pending spend; the SELL
branch looks the position up and skips when absent or empty. -/
def copyTradeAfterGuard (env : CopyTradeEnv) (pendingSpend : ℚ)
    (signal : TradeSignal) (calls0 : List AdapterCall) :
    ExecutionResult × ℚ × List AdapterCall :=
  match signal.side with
  | .BUY =>
      match env.fetchBalanceResp with
      | .error e => (failResult e .FAILED, pendingSpend, calls0 ++ [AdapterCall.balCall])
      | .ok chainBalance =>
          copyTradeSized env pendingSpend signal
            (usableBalanceBuy chainBalance pendingSpend)
            (calls0 ++ [AdapterCall.balCall])
  | .SELL =>
      match env.getPositionsResp with
      | .error e => (failResult e .FAILED, pendingSpend, calls0 ++ [AdapterCall.posCall])
      | .ok positions =>
          match positions.find? (fun p => decide (p.tokenId = signal.tokenId)) with
          | none =>
              (failResult "no_position_to_sell" .SKIPPED, pendingSpend,
                calls0 ++ [AdapterCall.posCall])
          | some myPosition =>
              if myPosition.balance ≤ 0 then
                (failResult "no_position_to_sell" .SKIPPED, pendingSpend,
                  calls0 ++ [AdapterCall.posCall])
              else
                copyTradeSized env pendingSpend signal myPosition.valueUsd
                  (calls0 ++ [AdapterCall.posCall])

/-- Embedding of `TradeExecutorService.copyTrade` (`src/unnamed/part_002`
lines 310-440): the pre-flight liquidity guard (lines 322-339), then the
balance/position step, sizing, price protection and order submission. -/
def copyTrade (env : CopyTradeEnv) (pendingSpend : ℚ) (signal : TradeSignal) :
    ExecutionResult × ℚ × List AdapterCall :=
  match env.getLiquidityMetricsResp with
  | none => copyTradeAfterGuard env pendingSpend signal []
  | some (.error e) => (failResult e .FAILED, pendingSpend, [AdapterCall.liqCall])
  | some (.ok metrics) =>
      if liquidityRank metrics.health <
          liquidityRank (env.minLiquidityFilter.getD .LOW) then
        (failResult "insufficient_liquidity" .ILLIQUID, pendingSpend,
          [AdapterCall.liqCall])
      else
        copyTradeAfterGuard env pendingSpend signal [AdapterCall.liqCall]

/-- C7: when the adapter reports liquidity metrics whose health ranks below
the configured minimum on the CRITICAL < LOW < MEDIUM < HIGH scale,
`copyTrade` returns status ILLIQUID with reason "insufficient_liquidity",
leaves the pending spend untouched, and performs no balance query, position
query, order-book fetch or order submission: the liquidity call is the only
adapter call made. -/
theorem copyTrade_liquidity_gate (env : CopyTradeEnv) (p : ℚ) (signal : TradeSignal)
    (m : LiquidityMetrics)
    (hm : env.getLiquidityMetricsResp = some (Except.ok m))
    (hrank : liquidityRank m.health < liquidityRank (env.minLiquidityFilter.getD .LOW)) :
    (copyTrade env p signal).1.status = .ILLIQUID ∧
    (copyTrade env p signal).1.reason = some "insufficient_liquidity" ∧
    (copyTrade env p signal).2.1 = p ∧
    (copyTrade env p signal).2.2 = [AdapterCall.liqCall] ∧
    AdapterCall.balCall ∉ (copyTrade env p signal).2.2 ∧
    AdapterCall.posCall ∉ (copyTrade env p signal).2.2 ∧
    AdapterCall.bookCall ∉ (copyTrade env p signal).2.2 ∧
    ∀ params, AdapterCall.orderCall params ∉ (copyTrade env p signal).2.2 := by
  have hcalc : copyTrade env p signal =
      (failResult "insufficient_liquidity" .ILLIQUID, p, [AdapterCall.liqCall]) := by
    unfold copyTrade
    rw [hm]
    simp [hrank]
  rw [hcalc]
  refine ⟨rfl, rfl, rfl, rfl, by simp, by simp, by simp, fun params => by simp⟩

/-- Witness for the liquidity gate theorem: a CRITICAL market against a
MEDIUM minimum is skipped as ILLIQUID with only the liquidity call made. -/
theorem copyTrade_liquidity_gate_witness :
    (copyTrade
      ⟨some (Except.ok ⟨.CRITICAL, 12, 40⟩), some .MEDIUM, Except.ok 1000,
        Except.ok [], 10000, Except.ok none, 1, 1000,
        Except.ok ⟨true, 95, 1/2, some "o1", none, none⟩⟩ 0
      ⟨"0xwhale", "m1", "t1", "YES", .BUY, 500, 1/2⟩).1.status = .ILLIQUID ∧
    (copyTrade
      ⟨some (Except.ok ⟨.CRITICAL, 12, 40⟩), some .MEDIUM, Except.ok 1000,
        Except.ok [], 10000, Except.ok none, 1, 1000,
        Except.ok ⟨true, 95, 1/2, some "o1", none, none⟩⟩ 0
      ⟨"0xwhale", "m1", "t1", "YES", .BUY, 500, 1/2⟩).1.reason =
        some "insufficient_liquidity" ∧
    (copyTrade
      ⟨some (Except.ok ⟨.CRITICAL, 12, 40⟩), some .MEDIUM, Except.ok 1000,
        Except.ok [], 10000, Except.ok none, 1, 1000,
        Except.ok ⟨true, 95, 1/2, some "o1", none, none⟩⟩ 0
      ⟨"0xwhale", "m1", "t1", "YES", .BUY, 500, 1/2⟩).2.1 = 0 ∧
    (copyTrade
      ⟨some (Except.ok ⟨.CRITICAL, 12, 40⟩), some .MEDIUM, Except.ok 1000,
        Except.ok [], 10000, Except.ok none, 1, 1000,
        Except.ok ⟨true, 95, 1/2, some "o1", none, none⟩⟩ 0
      ⟨"0xwhale", "m1", "t1", "YES", .BUY, 500, 1/2⟩).2.2 =
        [AdapterCall.liqCall] ∧
    AdapterCall.balCall ∉ (copyTrade
      ⟨some (Except.ok ⟨.CRITICAL, 12, 40⟩), some .MEDIUM, Except.ok 1000,
        Except.ok [], 10000, Except.ok none, 1, 1000,
        Except.ok ⟨true, 95, 1/2, some "o1", none, none⟩⟩ 0
      ⟨"0xwhale", "m1", "t1", "YES", .BUY, 500, 1/2⟩).2.2 ∧
    AdapterCall.posCall ∉ (copyTrade
      ⟨some (Except.ok ⟨.CRITICAL, 12, 40⟩), some .MEDIUM, Except.ok 1000,
        Except.ok [], 10000, Except.ok none, 1, 1000,
        Except.ok ⟨true, 95, 1/2, some "o1", none, none⟩⟩ 0
      ⟨"0xwhale", "m1", "t1", "YES", .BUY, 500, 1/2⟩).2.2 ∧
    AdapterCall.bookCall ∉ (copyTrade
      ⟨some (Except.ok ⟨.CRITICAL, 12, 40⟩), some .MEDIUM, Except.ok 1000,
        Except.ok [], 10000, Except.ok none, 1, 1000,
        Except.ok ⟨true, 95, 1/2, some "o1", none, none⟩⟩ 0
      ⟨"0xwhale", "m1", "t1", "YES", .BUY, 500, 1/2⟩).2.2 ∧
    ∀ params, AdapterCall.orderCall params ∉ (copyTrade
      ⟨some (Except.ok ⟨.CRITICAL, 12, 40⟩), some .MEDIUM, Except.ok 1000,
        Except.ok [], 10000, Except.ok none, 1, 1000,
        Except.ok ⟨true, 95, 1/2, some "o1", none, none⟩⟩ 0
      ⟨"0xwhale", "m1", "t1", "YES", .BUY, 500, 1/2⟩).2.2 :=
  copyTrade_liquidity_gate
    ⟨some (Except.ok ⟨.CRITICAL, 12, 40⟩), some .MEDIUM, Except.ok 1000,
      Except.ok [], 10000, Except.ok none, 1, 1000,
      Except.ok ⟨true, 95, 1/2, some "o1", none, none⟩⟩ 0
    ⟨"0xwhale", "m1", "t1", "YES", .BUY, 500, 1/2⟩
    ⟨.CRITICAL, 12, 40⟩ rfl (by decide)

lemma copyTradeSized_pending (env : CopyTradeEnv) (p : ℚ) (signal : TradeSignal)
    (usable : ℚ) (calls0 : List AdapterCall) :
    ((copyTradeSized env p signal usable calls0).1.status ≠ .FILLED →
      (copyTradeSized env p signal usable calls0).2.1 = p) ∧
    (signal.side = .SELL → (copyTradeSized env p signal usable calls0).2.1 = p) ∧
    (signal.side = .BUY → (copyTradeSized env p signal usable calls0).1.status = .FILLED →
      (copyTradeSized env p signal usable calls0).2.1 =
        p + (computeProportionalSizingFull
          (copyTradeSizingInput env signal usable)).targetUsdSize) ∧
    p ≤ (copyTradeSized env p signal usable calls0).2.1 := by
  simp only [copyTradeSized]
  split
  · split <;> simp [failResult]
  · rename_i hok
    push_neg at hok
    cases hres : env.createOrderResp with
    | error e => simp [failResult]
    | ok result =>
        by_cases hs : result.success = false
        · simp [hs]
        · cases hside : signal.side with
          | BUY =>
              simp only [hs, if_false, hside]
              refine ⟨by simp, by simp, fun _ _ => rfl, ?_⟩
              have h1 : (1:ℚ) ≤ (computeProportionalSizingFull
                  (copyTradeSizingInput env signal usable)).targetUsdSize := hok.1
              exact le_add_of_nonneg_right (le_trans zero_le_one h1)
          | SELL => simp [hs, hside]

lemma copyTradeAfterGuard_pending (env : CopyTradeEnv) (p : ℚ) (signal : TradeSignal)
    (calls0 : List AdapterCall) :
    ((copyTradeAfterGuard env p signal calls0).1.status ≠ .FILLED →
      (copyTradeAfterGuard env p signal calls0).2.1 = p) ∧
    (signal.side = .SELL → (copyTradeAfterGuard env p signal calls0).2.1 = p) ∧
    (signal.side = .BUY → (copyTradeAfterGuard env p signal calls0).1.status = .FILLED →
      ∀ b, env.fetchBalanceResp = .ok b →
        (copyTradeAfterGuard env p signal calls0).2.1 =
          p + (computeProportionalSizingFull
            (copyTradeSizingInput env signal (usableBalanceBuy b p))).targetUsdSize) ∧
    p ≤ (copyTradeAfterGuard env p signal calls0).2.1 := by
  cases hside : signal.side with
  | BUY =>
      cases hbal : env.fetchBalanceResp with
      | error e => simp [copyTradeAfterGuard, hside, hbal, failResult]
      | ok b =>
          have h := copyTradeSized_pending env p signal (usableBalanceBuy b p)
            (calls0 ++ [AdapterCall.balCall])
          simp only [copyTradeAfterGuard, hside, hbal]
          refine ⟨h.1, by simp, ?_, h.2.2.2⟩
          intro _ hfill b' hb'
          have hbb : b' = b := by
            injection hb' with hx
            exact hx.symm
          subst hbb
          exact h.2.2.1 hside hfill
  | SELL =>
      cases hpos : env.getPositionsResp with
      | error e => simp [copyTradeAfterGuard, hside, hpos, failResult]
      | ok positions =>
          cases hfind : positions.find? (fun q => decide (q.tokenId = signal.tokenId)) with
          | none => simp [copyTradeAfterGuard, hside, hpos, hfind, failResult]
          | some myPosition =>
              by_cases hb0 : myPosition.balance ≤ 0
              · simp [copyTradeAfterGuard, hside, hpos, hfind, hb0, failResult]
              · have h := copyTradeSized_pending env p signal myPosition.valueUsd
                  (calls0 ++ [AdapterCall.posCall])
                simp only [copyTradeAfterGuard, hside, hpos, hfind, hb0, if_false]
                exact ⟨h.1, fun _ => h.2.1 hside, by simp, h.2.2.2⟩

/-- C5 (amended form): the pendingSpend counter is changed only by a
successful BUY submission, where it is incremented by exactly the sized
target USD amount computed from the fresh balance snapshot minus the counter
itself (`max(0, chainBalance - pendingSpend)`); a SELL, a skip, a failure or
an error leaves it untouched; and the counter never decreases — in
particular, no execution path reconciles or resets it against a fresh
balance snapshot. -/
theorem copyTrade_pendingSpend_discipline (env : CopyTradeEnv) (p : ℚ)
    (signal : TradeSignal) :
    ((copyTrade env p signal).1.status ≠ .FILLED →
      (copyTrade env p signal).2.1 = p) ∧
    (signal.side = .SELL → (copyTrade env p signal).2.1 = p) ∧
    (signal.side = .BUY → (copyTrade env p signal).1.status = .FILLED →
      ∀ b, env.fetchBalanceResp = .ok b →
        (copyTrade env p signal).2.1 =
          p + (computeProportionalSizingFull
            (copyTradeSizingInput env signal (usableBalanceBuy b p))).targetUsdSize) ∧
    p ≤ (copyTrade env p signal).2.1 := by
  cases hliq : env.getLiquidityMetricsResp with
  | none =>
      have h := copyTradeAfterGuard_pending env p signal []
      simpa only [copyTrade, hliq] using h
  | some res =>
      cases res with
      | error e => simp [copyTrade, hliq, failResult]
      | ok metrics =>
          by_cases hrank : liquidityRank metrics.health <
              liquidityRank (env.minLiquidityFilter.getD .LOW)
          · simp [copyTrade, hliq, hrank, failResult]
          · have h := copyTradeAfterGuard_pending env p signal [AdapterCall.liqCall]
            simpa only [copyTrade, hliq, if_neg hrank] using h

/-- C5 counterexample: a successful BUY raises pendingSpend to 1000/21; a
second execution then takes a fresh balance snapshot (20000/21, already net
of the first spend) and proceeds to the order (which the exchange rejects,
status FAILED) — yet pendingSpend still reads 1000/21, the spend from before
that balance refresh: no execution path reconciles or resets the counter
against a fresh balance snapshot. -/
theorem copyTrade_pendingSpend_never_reset :
    (copyTrade
      ⟨none, none, Except.ok 1000, Except.ok [], 10000, Except.ok none, 1, 1000,
        Except.ok ⟨true, 95, 1/2, some "o1", none, none⟩⟩ 0
      ⟨"0xwhale", "m1", "t1", "YES", .BUY, 500, 1/2⟩).2.1 = 1000/21 ∧
    (copyTrade
      ⟨none, none, Except.ok (20000/21), Except.ok [], 10000, Except.ok none, 1, 1000,
        Except.ok ⟨false, 0, 0, none, none, some "rejected"⟩⟩ (1000/21)
      ⟨"0xwhale", "m1", "t1", "YES", .BUY, 500, 1/2⟩).1.status = .FAILED ∧
    (copyTrade
      ⟨none, none, Except.ok (20000/21), Except.ok [], 10000, Except.ok none, 1, 1000,
        Except.ok ⟨false, 0, 0, none, none, some "rejected"⟩⟩ (1000/21)
      ⟨"0xwhale", "m1", "t1", "YES", .BUY, 500, 1/2⟩).2.1 = 1000/21 ∧
    ((1000 : ℚ)/21) ≠ 0 := by
  refine ⟨?_, ?_, ?_, by norm_num⟩ <;>
    norm_num [copyTrade, copyTradeAfterGuard, copyTradeSized, copyTradeSizingInput,
      computeProportionalSizingFull, specTarget, specBase, specRatio, specDenom,
      minOrderSizeOf, usableBalanceBuy, failResult]

/-- Witness for the pendingSpend discipline theorem: at the concrete
successful BUY the counter is incremented by exactly the sized target of the
fresh snapshot, and it never decreases. -/
theorem copyTrade_pendingSpend_discipline_witness :
    (copyTrade
      ⟨none, none, Except.ok 1000, Except.ok [], 10000, Except.ok none, 1, 1000,
        Except.ok ⟨true, 95, 1/2, some "o1", none, none⟩⟩ 0
      ⟨"0xwhale", "m1", "t1", "YES", .BUY, 500, 1/2⟩).2.1 =
      0 + (computeProportionalSizingFull
        (copyTradeSizingInput
          ⟨none, none, Except.ok 1000, Except.ok [], 10000, Except.ok none, 1, 1000,
            Except.ok ⟨true, 95, 1/2, some "o1", none, none⟩⟩
          ⟨"0xwhale", "m1", "t1", "YES", .BUY, 500, 1/2⟩
          (usableBalanceBuy 1000 0))).targetUsdSize ∧
    (0 : ℚ) ≤ (copyTrade
      ⟨none, none, Except.ok 1000, Except.ok [], 10000, Except.ok none, 1, 1000,
        Except.ok ⟨true, 95, 1/2, some "o1", none, none⟩⟩ 0
      ⟨"0xwhale", "m1", "t1", "YES", .BUY, 500, 1/2⟩).2.1 :=
  ⟨(copyTrade_pendingSpend_discipline
      ⟨none, none, Except.ok 1000, Except.ok [], 10000, Except.ok none, 1, 1000,
        Except.ok ⟨true, 95, 1/2, some "o1", none, none⟩⟩ 0
      ⟨"0xwhale", "m1", "t1", "YES", .BUY, 500, 1/2⟩).2.2.1 rfl
      (by norm_num [copyTrade, copyTradeAfterGuard, copyTradeSized, copyTradeSizingInput,
        computeProportionalSizingFull, specTarget, specBase, specRatio, specDenom,
        minOrderSizeOf, usableBalanceBuy, failResult]) 1000 rfl,
   (copyTrade_pendingSpend_discipline
      ⟨none, none, Except.ok 1000, Except.ok [], 10000, Except.ok none, 1, 1000,
        Except.ok ⟨true, 95, 1/2, some "o1", none, none⟩⟩ 0
      ⟨"0xwhale", "m1", "t1", "YES", .BUY, 500, 1/2⟩).2.2.2⟩

/-! ## Book sweep (`PolymarketAdapter.createOrder`, `src/unnamed/part_004`
lines 228-306)

The while loop re-fetches the top of book each iteration and submits one
fill-or-kill order against it. Each iteration is driven by an injected pair
of the fetched book and the submission outcome: `some orderID?` when
`postOrder` reported success, `none` when the order was rejected or the
attempt threw (both increment the retry counter). When the injected
iteration list runs out the observation of the loop ends. The order is
recorded as submitted in the failure case too, a conservative superset of
the real submissions; the function's string return value (`lastTx`) is not
modelled, no claim concerns it. -/

/-- One order-book level (price and share size). -/
structure BookLevel where
  price : ℚ
  size : ℚ
deriving DecidableEq, Repr

/-- Order book snapshot with bid and ask levels. -/
structure SweepBook where
  bids : List BookLevel
  asks : List BookLevel
deriving DecidableEq, Repr

/-- One fill-or-kill order handed to `createMarketOrder`/`postOrder`
(`src/unnamed/part_004` lines 277-282). -/
structure SubmittedOrder where
  side : OrderSide
  tokenID : String
  amount : ℚ
  price : ℚ
deriving DecidableEq, Repr

/-- Exchange precision rounding (`src/unnamed/part_004` line 273):
`Math.floor(orderSize * 100) / 100`. -/
def floor2 (q : ℚ) : ℚ := ((⌊q * 100⌋ : ℤ) : ℚ) / 100

/-- JS truthiness of the optional `params.priceLimit` (lines 255-256):
present and non-zero. -/
def plTruthy : Option ℚ → Bool
  | none => false
  | some q => decide (q ≠ 0)

/-- Value of the optional price limit (0 when absent). -/
def plVal : Option ℚ → ℚ
  | none => 0
  | some q => q

/-- The sweep loop of `createOrder` (`src/unnamed/part_004` lines 241-303),
returning the list of submitted orders. Loop guard: `remaining > 0.50` and
`retryCount < 3`. An empty crossing side ends the sweep (a hard error on the
first attempt, a stop later; neither submits). Price protection: a BUY
breaks when the level price exceeds the truthy limit, a SELL breaks when the
level price is below it. The executable size is bounded by the remaining
notional and the level depth and rounded down to cents; a non-positive size
breaks. On success the remaining notional shrinks by the submitted value and
the retry counter resets; on failure the retry counter increments. -/
def createOrderSweep (isBuy : Bool) (priceLimit : Option ℚ) (tokenID : String) :
    ℚ → Nat → List (SweepBook × Option (Option String)) → List SubmittedOrder
  | _, _, [] => []
  | remaining, retryCount, (book, outcome) :: rest =>
      if remaining > 1/2 ∧ retryCount < 3 then
        match (if isBuy then book.asks else book.bids) with
        | [] => []
        | level :: _ =>
            if isBuy = true ∧ plTruthy priceLimit = true ∧ plVal priceLimit < level.price
            then []
            else if isBuy = false ∧ plTruthy priceLimit = true ∧
                level.price < plVal priceLimit then []
            else
              let orderValue := min remaining (level.size * level.price)
              let orderSize := floor2 (orderValue / level.price)
              if orderSize ≤ 0 then []
              else
                (⟨if isBuy then .BUY else .SELL, tokenID, orderSize, level.price⟩ :
                    SubmittedOrder) ::
                  (match outcome with
                   | some _ => createOrderSweep isBuy priceLimit tokenID
                       (remaining - orderValue) 0 rest
                   | none => createOrderSweep isBuy priceLimit tokenID
                       remaining (retryCount + 1) rest)
      else []

lemma createOrderSweep_buy_le (pl : ℚ) (hpl : 0 < pl) (tok : String) :
    ∀ (inputs : List (SweepBook × Option (Option String))) (remaining : ℚ)
      (retryCount : Nat) (o : SubmittedOrder),
      o ∈ createOrderSweep true (some pl) tok remaining retryCount inputs →
      o.price ≤ pl := by
  intro inputs
  induction inputs with
  | nil =>
      intro remaining retryCount o ho
      simp [createOrderSweep] at ho
  | cons hd rest ih =>
      intro remaining retryCount o ho
      obtain ⟨book, outcome⟩ := hd
      have htr : plTruthy (some pl) = true := by
        simp [plTruthy, ne_of_gt hpl]
      simp only [createOrderSweep] at ho
      split at ho
      · split at ho
        · simp at ho
        · rename_i level ltail hlv
          split at ho
          · simp at ho
          · split at ho
            · simp at ho
            · rename_i hc1 hc2
              split at ho
              · simp at ho
              · rename_i hsize
                rcases List.mem_cons.mp ho with he | hm
                · have hle : ¬ pl < level.price := by
                    intro hlt
                    exact hc1 ⟨trivial, htr, by simpa [plVal] using hlt⟩
                  rw [he]
                  exact le_of_not_lt hle
                · cases outcome with
                  | some oid => exact ih _ _ o hm
                  | none => exact ih _ _ o hm
      · simp at ho

lemma createOrderSweep_sell_ge (pl : ℚ) (hpl : 0 < pl) (tok : String) :
    ∀ (inputs : List (SweepBook × Option (Option String))) (remaining : ℚ)
      (retryCount : Nat) (o : SubmittedOrder),
      o ∈ createOrderSweep false (some pl) tok remaining retryCount inputs →
      pl ≤ o.price := by
  intro inputs
  induction inputs with
  | nil =>
      intro remaining retryCount o ho
      simp [createOrderSweep] at ho
  | cons hd rest ih =>
      intro remaining retryCount o ho
      obtain ⟨book, outcome⟩ := hd
      have htr : plTruthy (some pl) = true := by
        simp [plTruthy, ne_of_gt hpl]
      simp only [createOrderSweep] at ho
      split at ho
      · split at ho
        · simp at ho
        · rename_i level ltail hlv
          split at ho
          · simp at ho
          · split at ho
            · simp at ho
            · rename_i hc1 hc2
              split at ho
              · simp at ho
              · rename_i hsize
                rcases List.mem_cons.mp ho with he | hm
                · have hle : ¬ level.price < pl := by
                    intro hlt
                    exact hc2 ⟨trivial, htr, by simpa [plVal] using hlt⟩
                  rw [he]
                  exact le_of_not_lt hle
                · cases outcome with
                  | some oid => exact ih _ _ o hm
                  | none => exact ih _ _ o hm
      · simp at ho

lemma buyPriceLimit_bounds (sigPrice : ℚ) (hp : 0 < sigPrice) :
    0 < buyPriceLimit sigPrice ∧
    buyPriceLimit sigPrice ≤ sigPrice * (1 + 5/100) ∧
    buyPriceLimit sigPrice ≤ 99/100 := by
  simp only [buyPriceLimit]
  split
  · rename_i h
    refine ⟨by norm_num, le_of_lt h, le_refl _⟩
  · rename_i h
    push_neg at h
    exact ⟨by positivity, le_refl _, h⟩

lemma sellPriceLimit_bounds (sigPrice : ℚ) :
    0 < sellPriceLimit sigPrice ∧
    sigPrice * (1 - 10/100) ≤ sellPriceLimit sigPrice ∧
    1/1000 ≤ sellPriceLimit sigPrice := by
  simp only [sellPriceLimit]
  split
  · rename_i h
    exact ⟨by norm_num, le_of_lt h, le_refl _⟩
  · rename_i h
    push_neg at h
    exact ⟨lt_of_lt_of_le (by norm_num) h, le_refl _, h⟩

lemma copyTradeSized_orderCall (env : CopyTradeEnv) (p : ℚ) (signal : TradeSignal)
    (usable : ℚ) (calls0 : List AdapterCall)
    (h0 : ∀ q : OrderParams, AdapterCall.orderCall q ∉ calls0) :
    ∀ params : OrderParams,
      AdapterCall.orderCall params ∈ (copyTradeSized env p signal usable calls0).2.2 →
      params.priceLimit = some (copyTradePriceLimit signal) := by
  intro params hmem
  have hfin : ∀ P : OrderParams,
      AdapterCall.orderCall params ∈
        calls0 ++ [AdapterCall.whaleCall, AdapterCall.bookCall] ++
          [AdapterCall.orderCall P] →
      params = P := by
    intro P hmemP
    rcases List.mem_append.mp hmemP with h | h
    · rcases List.mem_append.mp h with h1 | h1
      · exact absurd h1 (h0 params)
      · simp at h1
    · have h2 : AdapterCall.orderCall params = AdapterCall.orderCall P := by
        simpa using h
      injection h2 with hq
  simp only [copyTradeSized] at hmem
  split at hmem
  · split at hmem <;>
    · rcases List.mem_append.mp hmem with h | h
      · exact absurd h (h0 params)
      · simp at h
  · split at hmem
    · rw [hfin _ hmem]
    · split at hmem
      · rw [hfin _ hmem]
      · rw [hfin _ hmem]

lemma copyTradeAfterGuard_orderCall (env : CopyTradeEnv) (p : ℚ) (signal : TradeSignal)
    (calls0 : List AdapterCall)
    (h0 : ∀ q : OrderParams, AdapterCall.orderCall q ∉ calls0) :
    ∀ params : OrderParams,
      AdapterCall.orderCall params ∈ (copyTradeAfterGuard env p signal calls0).2.2 →
      params.priceLimit = some (copyTradePriceLimit signal) := by
  intro params hmem
  have hbal : ∀ q : OrderParams,
      AdapterCall.orderCall q ∉ calls0 ++ [AdapterCall.balCall] := by
    intro q hq
    rcases List.mem_append.mp hq with h | h
    · exact h0 q h
    · simp at h
  have hpos : ∀ q : OrderParams,
      AdapterCall.orderCall q ∉ calls0 ++ [AdapterCall.posCall] := by
    intro q hq
    rcases List.mem_append.mp hq with h | h
    · exact h0 q h
    · simp at h
  unfold copyTradeAfterGuard at hmem
  split at hmem
  · split at hmem
    · exact absurd hmem (hbal params)
    · exact copyTradeSized_orderCall env p signal _ _ hbal params hmem
  · split at hmem
    · exact absurd hmem (hpos params)
    · split at hmem
      · exact absurd hmem (hpos params)
      · split at hmem
        · exact absurd hmem (hpos params)
        · exact copyTradeSized_orderCall env p signal _ _ hpos params hmem

lemma copyTrade_orderCall (env : CopyTradeEnv) (p : ℚ) (signal : TradeSignal) :
    ∀ params : OrderParams,
      AdapterCall.orderCall params ∈ (copyTrade env p signal).2.2 →
      params.priceLimit = some (copyTradePriceLimit signal) := by
  intro params hmem
  have hnil : ∀ q : OrderParams, AdapterCall.orderCall q ∉ ([] : List AdapterCall) := by
    simp
  have hliq1 : ∀ q : OrderParams,
      AdapterCall.orderCall q ∉ [AdapterCall.liqCall] := by
    simp
  unfold copyTrade at hmem
  split at hmem
  · exact copyTradeAfterGuard_orderCall env p signal [] hnil params hmem
  · exact absurd hmem (hliq1 params)
  · split at hmem
    · exact absurd hmem (hliq1 params)
    · exact copyTradeAfterGuard_orderCall env p signal _ hliq1 params hmem

/-- C4: with the BUY limit the executor computes (signalPrice times 1.05,
capped at 0.99) attached, every order the sweep submits is priced at most
signalPrice times 1.05 and at most 0.99; with the automated SELL limit
(signalPrice times 0.90, floored at 0.001), every submitted order is priced
at least signalPrice times 0.90 and at least 0.001; the moment the
top-of-book level breaches the limit the sweep returns with no further
submission; and every order call `copyTrade` makes carries exactly these
limits for its side. -/
theorem createOrder_price_protection (sigPrice : ℚ) (hp : 0 < sigPrice)
    (tok : String) (remaining : ℚ) (retryCount : Nat)
    (inputs : List (SweepBook × Option (Option String))) :
    (∀ o ∈ createOrderSweep true (some (buyPriceLimit sigPrice)) tok
        remaining retryCount inputs,
      o.price ≤ sigPrice * (1 + 5/100) ∧ o.price ≤ 99/100) ∧
    (∀ o ∈ createOrderSweep false (some (sellPriceLimit sigPrice)) tok
        remaining retryCount inputs,
      sigPrice * (1 - 10/100) ≤ o.price ∧ 1/1000 ≤ o.price) ∧
    (∀ (book : SweepBook) (outcome : Option (Option String))
        (rest : List (SweepBook × Option (Option String)))
        (level : BookLevel) (ltail : List BookLevel),
      book.asks = level :: ltail → buyPriceLimit sigPrice < level.price →
      createOrderSweep true (some (buyPriceLimit sigPrice)) tok remaining retryCount
        ((book, outcome) :: rest) = []) ∧
    (∀ (book : SweepBook) (outcome : Option (Option String))
        (rest : List (SweepBook × Option (Option String)))
        (level : BookLevel) (ltail : List BookLevel),
      book.bids = level :: ltail → level.price < sellPriceLimit sigPrice →
      createOrderSweep false (some (sellPriceLimit sigPrice)) tok remaining retryCount
        ((book, outcome) :: rest) = []) ∧
    (∀ (env : CopyTradeEnv) (p : ℚ) (signal : TradeSignal) (params : OrderParams),
      AdapterCall.orderCall params ∈ (copyTrade env p signal).2.2 →
      (signal.side = .BUY → params.priceLimit = some (buyPriceLimit signal.price)) ∧
      (signal.side = .SELL → params.priceLimit = some (sellPriceLimit signal.price))) := by
  obtain ⟨hb0, hb1, hb2⟩ := buyPriceLimit_bounds sigPrice hp
  obtain ⟨hs0, hs1, hs2⟩ := sellPriceLimit_bounds sigPrice
  refine ⟨?_, ?_, ?_, ?_, ?_⟩
  · intro o ho
    have h := createOrderSweep_buy_le _ hb0 tok inputs remaining retryCount o ho
    exact ⟨h.trans hb1, h.trans hb2⟩
  · intro o ho
    have h := createOrderSweep_sell_ge _ hs0 tok inputs remaining retryCount o ho
    exact ⟨hs1.trans h, hs2.trans h⟩
  · intro book outcome rest level ltail hasks hbreach
    simp [createOrderSweep, hasks, plTruthy, plVal, ne_of_gt hb0, hbreach]
  · intro book outcome rest level ltail hbids hbreach
    simp [createOrderSweep, hbids, plTruthy, plVal, ne_of_gt hs0, hbreach]
  · intro env p signal params hmem
    have h := copyTrade_orderCall env p signal params hmem
    constructor
    · intro hside
      rw [h]
      simp [copyTradePriceLimit, hside]
    · intro hside
      rw [h]
      simp [copyTradePriceLimit, hside]

/-- Witness for the price-protection theorem: at signal price 0.40 the BUY
limit is 0.42; an order the sweep submits at level price 0.40 obeys both
bounds, and a book whose best ask is 0.50 (a breach) produces no
submission at all. -/
theorem createOrder_price_protection_witness :
    ((⟨.BUY, "t1", 50, 2/5⟩ : SubmittedOrder).price ≤ (2/5 : ℚ) * (1 + 5/100) ∧
      (⟨.BUY, "t1", 50, 2/5⟩ : SubmittedOrder).price ≤ 99/100) ∧
    createOrderSweep true (some (buyPriceLimit (2/5))) "t1" 20 0
      [(⟨[], [⟨1/2, 100⟩]⟩, some (some "o1"))] = [] :=
  ⟨(createOrder_price_protection (2/5) (by norm_num) "t1" 20 0
      [(⟨[], [⟨2/5, 100⟩]⟩, some (some "o1"))]).1 ⟨.BUY, "t1", 50, 2/5⟩
      (by norm_num [createOrderSweep, plTruthy, plVal, floor2, buyPriceLimit]),
   (createOrder_price_protection (2/5) (by norm_num) "t1" 20 0
      [(⟨[], [⟨1/2, 100⟩]⟩, some (some "o1"))]).2.2.1
      ⟨[], [⟨1/2, 100⟩]⟩ (some (some "o1")) [] ⟨1/2, 100⟩ [] rfl
      (by norm_num [buyPriceLimit])⟩

/-! ## Fee distributor (`FeeDistributorService.distributeFeesOnProfit`,
`src/dist-node/services/alpha-registry.service.js` lines 188-229)

The lister lookup and the two USDC transfers are injected. The two
transfers are started in parallel by `Promise.all` (line 212), so each leg
settles independently of the other: the embedding returns, besides the
emitted event (or `none`), which legs actually paid. The event's wall-clock
timestamp field is omitted. -/

/-- Fee distribution event (lines 214-223, without the wall-clock
timestamp). -/
structure FeeDistributionEvent where
  tradeId : String
  profitAmount : ℚ
  listerFee : ℚ
  platformFee : ℚ
  listerAddress : String
  platformAddress : String
  txHash : String
deriving DecidableEq, Repr

/-- Settlement outcomes of the two parallel transfers: the lister leg, the
platform leg, and the transaction hash the lister leg reported. -/
structure FeeTransferOutcome where
  listerOk : Bool
  platformOk : Bool
  listerTxHash : String
deriving DecidableEq, Repr

/-- Embedding of `distributeFeesOnProfit`: gates on positive profit, a
resolved lister and the dust threshold; then both transfers run in
parallel, each leg paying exactly when its own transfer settles, and the
event is returned only when both settle. -/
def distributeFeesOnProfit (tradeId : String) (netProfitUsdc : ℚ)
    (listerLookup : Option String) (adminRevenueWallet : String)
    (transfers : FeeTransferOutcome) :
    Option FeeDistributionEvent × Bool × Bool :=
  if netProfitUsdc ≤ 0 then (none, false, false)
  else
    match listerLookup with
    | none => (none, false, false)
    | some listerAddress =>
        let feePercentage : ℚ := 1/100
        let listerShare := netProfitUsdc * feePercentage
        let platformShare := netProfitUsdc * feePercentage
        if listerShare < 1/100 then (none, false, false)
        else
          if transfers.listerOk && transfers.platformOk then
            (some ⟨tradeId, netProfitUsdc, listerShare, platformShare,
              listerAddress, adminRevenueWallet, transfers.listerTxHash⟩,
             transfers.listerOk, transfers.platformOk)
          else (none, transfers.listerOk, transfers.platformOk)

/-- C6 counterexample: with profit 10, a resolved lister, and a lister
transfer that settles while the platform transfer fails, the distribution
is withheld (no event) but the lister leg has already been paid — the two
transfers run in parallel, so a settlement failure does not guarantee that
no partial payment occurred. -/
theorem distributeFees_partial_payment :
    distributeFeesOnProfit "trade1" 10 (some "0xlister") "0xadmin"
      ⟨true, false, "0xtx"⟩ = (none, true, false) := by
  norm_num [distributeFeesOnProfit]

/-- C6 amended: an event is emitted exactly when the profit is positive, a
lister resolves, the profit reaches the one-dollar dust threshold
(listerShare at least one cent) and both parallel transfers settle; the
emitted fees sum to profit times (listerPct + platformPct) with both
percentages fixed at one percent; before the profit/lister/dust gates no
transfer is attempted (no leg pays); but past the gates each parallel leg
pays exactly when its own transfer settles, so on a settlement failure of
one leg the other may already have paid and a blind retry may double-pay. -/
theorem distributeFees_gating (tradeId : String) (profit : ℚ)
    (lookup : Option String) (admin : String) (tr : FeeTransferOutcome) :
    ((distributeFeesOnProfit tradeId profit lookup admin tr).1.isSome = true ↔
      (0 < profit ∧ lookup.isSome = true ∧ 1 ≤ profit ∧
        tr.listerOk = true ∧ tr.platformOk = true)) ∧
    (∀ e, (distributeFeesOnProfit tradeId profit lookup admin tr).1 = some e →
      e.listerFee + e.platformFee = profit * (1/100 + 1/100) ∧
      e.profitAmount = profit) ∧
    ((profit ≤ 0 ∨ lookup = none ∨ profit * (1/100) < 1/100) →
      distributeFeesOnProfit tradeId profit lookup admin tr = (none, false, false)) ∧
    ((distributeFeesOnProfit tradeId profit lookup admin tr).2.1 = tr.listerOk ∨
      (distributeFeesOnProfit tradeId profit lookup admin tr).2.1 = false) ∧
    ((distributeFeesOnProfit tradeId profit lookup admin tr).2.2 = tr.platformOk ∨
      (distributeFeesOnProfit tradeId profit lookup admin tr).2.2 = false) := by
  by_cases hp : profit ≤ 0
  · have hD : distributeFeesOnProfit tradeId profit lookup admin tr =
        (none, false, false) := by
      unfold distributeFeesOnProfit
      rw [if_pos hp]
    rw [hD]
    refine ⟨?_, ?_, fun _ => rfl, Or.inr rfl, Or.inr rfl⟩
    · constructor
      · intro h
        simp at h
      · intro h
        exact absurd h.1 (not_lt.mpr hp)
    · intro e he
      simp at he
  · push_neg at hp
    cases lookup with
    | none =>
        have hD : distributeFeesOnProfit tradeId profit none admin tr =
            (none, false, false) := by
          unfold distributeFeesOnProfit
          rw [if_neg (not_le.mpr hp)]
        rw [hD]
        refine ⟨?_, ?_, fun _ => rfl, Or.inr rfl, Or.inr rfl⟩
        · constructor
          · intro h
            simp at h
          · intro h
            simpa using h.2.1
        · intro e he
          simp at he
    | some lister =>
        by_cases hd : profit * (1/100) < 1/100
        · have hD : distributeFeesOnProfit tradeId profit (some lister) admin tr =
              (none, false, false) := by
            unfold distributeFeesOnProfit
            rw [if_neg (not_le.mpr hp)]
            dsimp only
            rw [if_pos hd]
          rw [hD]
          refine ⟨?_, ?_, fun _ => rfl, Or.inr rfl, Or.inr rfl⟩
          · constructor
            · intro h
              simp at h
            · intro h
              have h1 := h.2.2.1
              linarith
          · intro e he
            simp at he
        · have hd1 : (1:ℚ) ≤ profit := by
            have := not_lt.mp hd
            linarith
          cases hL : tr.listerOk with
          | false =>
              have hD : distributeFeesOnProfit tradeId profit (some lister) admin tr =
                  (none, false, tr.platformOk) := by
                unfold distributeFeesOnProfit
                rw [if_neg (not_le.mpr hp)]
                dsimp only
                rw [if_neg hd, hL]
                simp
              rw [hD]
              refine ⟨?_, ?_, ?_, Or.inl rfl, Or.inl rfl⟩
              · constructor
                · intro h
                  simp at h
                · intro h
                  simpa [hL] using h.2.2.2.1
              · intro e he
                simp at he
              · intro hcase
                rcases hcase with h | h | h
                · linarith
                · simp at h
                · exact absurd h hd
          | true =>
              cases hP : tr.platformOk with
              | false =>
                  have hD : distributeFeesOnProfit tradeId profit (some lister) admin tr =
                      (none, tr.listerOk, false) := by
                    unfold distributeFeesOnProfit
                    rw [if_neg (not_le.mpr hp)]
                    dsimp only
                    rw [if_neg hd, hP]
                    simp
                  rw [hD]
                  refine ⟨?_, ?_, ?_, Or.inl hL, Or.inl rfl⟩
                  · constructor
                    · intro h
                      simp at h
                    · intro h
                      simpa [hP] using h.2.2.2.2
                  · intro e he
                    simp at he
                  · intro hcase
                    rcases hcase with h | h | h
                    · linarith
                    · simp at h
                    · exact absurd h hd
              | true =>
                  have hD : distributeFeesOnProfit tradeId profit (some lister) admin tr =
                      (some ⟨tradeId, profit, profit * (1/100), profit * (1/100),
                        lister, admin, tr.listerTxHash⟩, tr.listerOk, tr.platformOk) := by
                    unfold distributeFeesOnProfit
                    rw [if_neg (not_le.mpr hp)]
                    dsimp only
                    rw [if_neg hd, hL, hP]
                    simp [hL, hP]
                  rw [hD]
                  refine ⟨?_, ?_, ?_, Or.inl hL, Or.inl hP⟩
                  · constructor
                    · intro _
                      exact ⟨hp, by simp, hd1, rfl, rfl⟩
                    · intro _
                      simp
                  · intro e he
                    have he2 : e = ⟨tradeId, profit, profit * (1/100), profit * (1/100),
                        lister, admin, tr.listerTxHash⟩ := by
                      injection he with h2
                      exact h2.symm
                    rw [he2]
                    exact ⟨by ring, rfl⟩
                  · intro hcase
                    rcases hcase with h | h | h
                    · linarith
                    · simp at h
                    · exact absurd h hd

/-- Witness for the fee gating theorem: profit 10 with a lister and both
transfers settling emits an event whose fees sum to ten times two percent;
profit 0.50 is below the dust threshold and pays nothing. -/
theorem distributeFees_gating_witness :
    (distributeFeesOnProfit "trade9" 10 (some "0xlister") "0xadmin"
        ⟨true, true, "0xtx"⟩).1.isSome = true ∧
    ((⟨"trade9", 10, 10 * (1/100), 10 * (1/100), "0xlister", "0xadmin", "0xtx"⟩ :
        FeeDistributionEvent).listerFee +
      (⟨"trade9", 10, 10 * (1/100), 10 * (1/100), "0xlister", "0xadmin", "0xtx"⟩ :
        FeeDistributionEvent).platformFee = (10:ℚ) * (1/100 + 1/100)) ∧
    distributeFeesOnProfit "dust" (1/2) (some "0xlister") "0xadmin"
      ⟨true, true, "0xtx"⟩ = (none, false, false) :=
  ⟨(distributeFees_gating "trade9" 10 (some "0xlister") "0xadmin"
      ⟨true, true, "0xtx"⟩).1.mpr ⟨by norm_num, by simp, by norm_num, rfl, rfl⟩,
   ((distributeFees_gating "trade9" 10 (some "0xlister") "0xadmin"
      ⟨true, true, "0xtx"⟩).2.1
      ⟨"trade9", 10, 10 * (1/100), 10 * (1/100), "0xlister", "0xadmin", "0xtx"⟩
      (by norm_num [distributeFeesOnProfit])).1,
   (distributeFees_gating "dust" (1/2) (some "0xlister") "0xadmin"
      ⟨true, true, "0xtx"⟩).2.2.1 (Or.inr (Or.inr (by norm_num)))⟩

/-! ## Trader balance cache (`TradeExecutorService.getTraderBalance`,
`src/unnamed/part_002` lines 442-460, compiled form `src/unnamed/part_008`
lines 129-147) -/

/-- One portfolio position of the positions API response. -/
structure TraderPosition where
  currentValue : ℚ
  initialValue : ℚ
deriving DecidableEq, Repr

/-- JS `pos.currentValue || pos.initialValue || 0` (line 452): the first
truthy (non-zero) value; an absent field is modelled as 0, which is also
falsy. -/
def posValue (p : TraderPosition) : ℚ :=
  if p.currentValue ≠ 0 then p.currentValue
  else if p.initialValue ≠ 0 then p.initialValue
  else 0

/-- Cache TTL in milliseconds (line 259): five minutes. -/
def CACHE_TTL : Nat := 5 * 60 * 1000

/-- Fetch path of `getTraderBalance` (lines 448-459): sum the position
values, floor the total at 1000 and cache it; on a fetch error return the
fixed fallback 10000 and leave the cache untouched. -/
def getTraderBalanceFetch (nowMs : Nat) (fetch : Except Unit (List TraderPosition))
    (cache : Option (ℚ × Nat)) : ℚ × Option (ℚ × Nat) :=
  match fetch with
  | .ok positions =>
      let totalValue := (positions.map posValue).sum
      let val := max 1000 totalValue
      (val, some (val, nowMs))
  | .error _ => (10000, cache)

/-- Embedding of `getTraderBalance`: a cache entry younger than the TTL is
returned as is; otherwise the balance is fetched. -/
def getTraderBalance : Option (ℚ × Nat) → Nat → Except Unit (List TraderPosition) →
    ℚ × Option (ℚ × Nat)
  | some (v, ts), nowMs, fetch =>
      if nowMs - ts < CACHE_TTL then (v, some (v, ts))
      else getTraderBalanceFetch nowMs fetch (some (v, ts))
  | none, nowMs, fetch => getTraderBalanceFetch nowMs fetch none

/-- C10: `getTraderBalance` always returns at least 1000 (assuming every
cached entry was produced by an earlier call, hence is itself at least
1000); every entry it caches is at least 1000, so the assumption is
self-sustaining; a successful stale-cache or cold fetch returns the
position total floored at 1000 and caches it; a failed fetch returns the
fixed fallback 10000 and caches nothing; and a trader balance of at least
1000 forces the sizing denominator `max(1, traderBalance + max(0,
traderTradeUsd))` to be at least 1000 as well. -/
theorem getTraderBalance_floor (cache : Option (ℚ × Nat)) (nowMs : Nat)
    (fetch : Except Unit (List TraderPosition))
    (hinv : ∀ v ts, cache = some (v, ts) → 1000 ≤ v) :
    1000 ≤ (getTraderBalance cache nowMs fetch).1 ∧
    (∀ v ts, (getTraderBalance cache nowMs fetch).2 = some (v, ts) → 1000 ≤ v) ∧
    (∀ positions, fetch = .ok positions →
      (∀ v ts, cache = some (v, ts) → ¬ nowMs - ts < CACHE_TTL) →
      (getTraderBalance cache nowMs fetch).1 =
        max 1000 ((positions.map posValue).sum) ∧
      (getTraderBalance cache nowMs fetch).2 =
        some (max 1000 ((positions.map posValue).sum), nowMs)) ∧
    (fetch = .error () →
      (∀ v ts, cache = some (v, ts) → ¬ nowMs - ts < CACHE_TTL) →
      (getTraderBalance cache nowMs fetch).1 = 10000 ∧
      (getTraderBalance cache nowMs fetch).2 = cache) ∧
    (∀ traderBalance traderTradeUsd : ℚ, 1000 ≤ traderBalance →
      1000 ≤ specDenom traderBalance traderTradeUsd) := by
  have hdenom : ∀ traderBalance traderTradeUsd : ℚ, 1000 ≤ traderBalance →
      1000 ≤ specDenom traderBalance traderTradeUsd := by
    intro tb ttu htb
    refine le_trans ?_ (le_max_right 1 _)
    have : (0:ℚ) ≤ max 0 ttu := le_max_left 0 ttu
    linarith
  cases cache with
  | some entry =>
      obtain ⟨v, ts⟩ := entry
      have hv : 1000 ≤ v := hinv v ts rfl
      by_cases hfresh : nowMs - ts < CACHE_TTL
      · have hD : getTraderBalance (some (v, ts)) nowMs fetch = (v, some (v, ts)) := by
          show (if nowMs - ts < CACHE_TTL then (v, some (v, ts))
              else getTraderBalanceFetch nowMs fetch (some (v, ts))) = (v, some (v, ts))
          rw [if_pos hfresh]
        rw [hD]
        refine ⟨hv, ?_, ?_, ?_, hdenom⟩
        · intro v' ts' hvts
          injection hvts with h1
          injection h1 with h2
          rw [← h2]
          exact hv
        · intro positions _ hstale
          exact absurd hfresh (hstale v ts rfl)
        · intro _ hstale
          exact absurd hfresh (hstale v ts rfl)
      · have hD : getTraderBalance (some (v, ts)) nowMs fetch =
            getTraderBalanceFetch nowMs fetch (some (v, ts)) := by
          show (if nowMs - ts < CACHE_TTL then (v, some (v, ts))
              else getTraderBalanceFetch nowMs fetch (some (v, ts))) =
            getTraderBalanceFetch nowMs fetch (some (v, ts))
          rw [if_neg hfresh]
        rw [hD]
        cases fetch with
        | ok positions =>
            refine ⟨le_max_left _ _, ?_, ?_, ?_, hdenom⟩
            · intro v' ts' hvts
              simp only [getTraderBalanceFetch] at hvts
              injection hvts with h1
              injection h1 with h2
              rw [← h2]
              exact le_max_left _ _
            · intro positions' hps _
              have hpp : positions' = positions := by
                injection hps with h1
                exact h1.symm
              rw [hpp]
              exact ⟨rfl, rfl⟩
            · intro hcontra
              simp at hcontra
        | error u =>
            refine ⟨by norm_num [getTraderBalanceFetch], ?_, ?_, ?_, hdenom⟩
            · intro v' ts' hvts
              simp only [getTraderBalanceFetch] at hvts
              injection hvts with h1
              injection h1 with h2
              rw [← h2]
              exact hv
            · intro positions hps
              simp at hps
            · intro _ _
              exact ⟨rfl, rfl⟩
  | none =>
      cases fetch with
      | ok positions =>
          refine ⟨le_max_left _ _, ?_, ?_, ?_, hdenom⟩
          · intro v' ts' hvts
            simp only [getTraderBalance, getTraderBalanceFetch] at hvts
            injection hvts with h1
            injection h1 with h2
            rw [← h2]
            exact le_max_left _ _
          · intro positions' hps _
            have hpp : positions' = positions := by
              injection hps with h1
              exact h1.symm
            rw [hpp]
            exact ⟨rfl, rfl⟩
          · intro hcontra
            simp at hcontra
      | error u =>
          refine ⟨by norm_num [getTraderBalance, getTraderBalanceFetch], ?_, ?_, ?_, hdenom⟩
          · intro v' ts' hvts
            simp [getTraderBalance, getTraderBalanceFetch] at hvts
          · intro positions hps
            simp at hps
          · intro _ _
            exact ⟨rfl, rfl⟩

/-- Witness for the trader-balance floor theorem: a cold fetch of a tiny
portfolio (700 dollars) is floored to 1000, and a failed fetch falls back
to 10000 with the cache untouched. -/
theorem getTraderBalance_floor_witness :
    (1000:ℚ) ≤ (getTraderBalance none 5000 (Except.ok [⟨0, 700⟩])).1 ∧
    (getTraderBalance none 5000 (Except.ok [⟨0, 700⟩])).1 =
      max 1000 (([(⟨0, 700⟩ : TraderPosition)].map posValue).sum) ∧
    (getTraderBalance none 5000 (Except.error ())).1 = 10000 ∧
    (getTraderBalance none 5000 (Except.error ())).2 = none :=
  ⟨(getTraderBalance_floor none 5000 (Except.ok [⟨0, 700⟩])
      (fun v ts h => by simp at h)).1,
   ((getTraderBalance_floor none 5000 (Except.ok [⟨0, 700⟩])
      (fun v ts h => by simp at h)).2.2.1 [⟨0, 700⟩] rfl
      (fun v ts h => by simp at h)).1,
   ((getTraderBalance_floor none 5000 (Except.error ())
      (fun v ts h => by simp at h)).2.2.2.1 rfl
      (fun v ts h => by simp at h)).1,
   ((getTraderBalance_floor none 5000 (Except.error ())
      (fun v ts h => by simp at h)).2.2.2.1 rfl
      (fun v ts h => by simp at h)).2⟩
